import Mathlib

/-!
Verification development for the SRS ambiguity-analysis engine.

The Python source is shallowly embedded: pure functions become Lean
functions, stateful loops become explicit state passing, exceptions become
`Except`/`Option` values, and calls into external services (embedding model,
vector store, BM25, cross-encoder, LLM, PDF text extraction, the wall clock)
become explicit function-valued parameters or fields.  Strings are Lean
`String`s; Python `len` on text is `String.length` (both count code points).
-/

namespace Spec2Proof

/-! ### Python primitives -/

/-- Decimal digit characters: `digitChar10 d` is the character Python prints
for the decimal digit `d` (meaningful for `d < 10`). -/
def digitChar10 (d : ℕ) : Char := Char.ofNat (48 + d)

/-- Decimal digit characters of `n`, most significant first, via repeated
division (`fuel`-bounded so that it is structurally recursive and
kernel-computable; `fuel = n` always suffices). -/
def natCharsAux : ℕ → ℕ → List Char
  | 0, _ => []
  | fuel + 1, n => if n = 0 then [] else natCharsAux fuel (n / 10) ++ [digitChar10 (n % 10)]

/-- The character list of the decimal rendering of a natural number, as
produced by Python `str(n)` / an f-string placeholder. -/
def natChars (n : ℕ) : List Char :=
  if n = 0 then [Char.ofNat 48] else natCharsAux n n

/-- Decimal rendering of a natural number (Python `str(n)`). -/
def natStr (n : ℕ) : String := ⟨natChars n⟩

/-- Decimal rendering of an integer (Python `str(n)`). -/
def intStr (n : ℤ) : String :=
  if n < 0 then "-" ++ natStr n.natAbs else natStr n.natAbs

theorem digitChar10_toNat {d : ℕ} (h : d < 10) : (digitChar10 d).toNat = 48 + d := by
  interval_cases d <;> rfl

theorem digitChar10_inj {d e : ℕ} (hd : d < 10) (he : e < 10)
    (h : digitChar10 d = digitChar10 e) : d = e := by
  have := congrArg Char.toNat h
  rw [digitChar10_toNat hd, digitChar10_toNat he] at this
  omega

theorem map_digitChar10_inj : ∀ {l m : List ℕ}, (∀ d ∈ l, d < 10) → (∀ d ∈ m, d < 10) →
    l.map digitChar10 = m.map digitChar10 → l = m
  | [], [], _, _, _ => rfl
  | [], _ :: _, _, _, h => by simp at h
  | _ :: _, [], _, _, h => by simp at h
  | a :: l, b :: m, hl, hm, h => by
    simp only [List.map_cons, List.cons.injEq] at h
    have ha := hl a (by simp)
    have hb := hm b (by simp)
    have : l = m := map_digitChar10_inj (fun d hd => hl d (by simp [hd]))
      (fun d hd => hm d (by simp [hd])) h.2
    exact by rw [digitChar10_inj ha hb h.1, this]

theorem natCharsAux_eq_digits :
    ∀ (fuel n : ℕ), n ≤ fuel →
      natCharsAux fuel n = ((Nat.digits 10 n).map digitChar10).reverse := by
  intro fuel
  induction fuel with
  | zero =>
      intro n h
      have h0 : n = 0 := Nat.le_zero.mp h
      subst h0
      simp [natCharsAux]
  | succ fuel ih =>
      intro n h
      by_cases h0 : n = 0
      · simp [natCharsAux, h0]
      · have hdiv : n / 10 ≤ fuel := by
          have : n / 10 < n := Nat.div_lt_self (Nat.pos_of_ne_zero h0) (by norm_num)
          omega
        rw [natCharsAux, if_neg h0, ih _ hdiv,
          Nat.digits_def' (by norm_num : (1 : ℕ) < 10) (Nat.pos_of_ne_zero h0)]
        simp

theorem natChars_eq_digits (n : ℕ) :
    natChars n = if n = 0 then [Char.ofNat 48]
      else ((Nat.digits 10 n).map digitChar10).reverse := by
  by_cases h : n = 0
  · simp [natChars, h]
  · simp [natChars, h, natCharsAux_eq_digits n n le_rfl]

theorem natChars_inj : Function.Injective natChars := by
  intro a b h
  rw [natChars_eq_digits, natChars_eq_digits] at h
  by_cases ha : a = 0 <;> by_cases hb : b = 0 <;> simp [ha, hb] at h ⊢
  · -- a = 0, b ≠ 0 : the digit list of b maps to ['0'], forcing b = 0
    exfalso
    have h' : (Nat.digits 10 b).map digitChar10 = [Char.ofNat 48] := by
      have := congrArg List.reverse h
      simpa using this.symm
    rcases List.map_eq_cons_iff.mp h' with ⟨d, rest, hd, hchar, hrest⟩
    have hrest' : rest = [] := by
      rcases rest with _ | _
      · rfl
      · simp at hrest
    have hdlt : d < 10 := Nat.digits_lt_base (by norm_num) (by rw [hd]; simp)
    have hd0 : d = 0 := by
      have : (digitChar10 d).toNat = 48 := by rw [hchar]; rfl
      rw [digitChar10_toNat hdlt] at this; omega
    have : b = Nat.ofDigits 10 (Nat.digits 10 b) := (Nat.ofDigits_digits 10 b).symm
    rw [hd, hrest', hd0] at this
    simp [Nat.ofDigits] at this
    exact hb this
  · -- symmetric case
    exfalso
    have h' : (Nat.digits 10 a).map digitChar10 = [Char.ofNat 48] := by
      have := congrArg List.reverse h
      simpa using this
    rcases List.map_eq_cons_iff.mp h' with ⟨d, rest, hd, hchar, hrest⟩
    have hrest' : rest = [] := by
      rcases rest with _ | _
      · rfl
      · simp at hrest
    have hdlt : d < 10 := Nat.digits_lt_base (by norm_num) (by rw [hd]; simp)
    have hd0 : d = 0 := by
      have : (digitChar10 d).toNat = 48 := by rw [hchar]; rfl
      rw [digitChar10_toNat hdlt] at this; omega
    have : a = Nat.ofDigits 10 (Nat.digits 10 a) := (Nat.ofDigits_digits 10 a).symm
    rw [hd, hrest', hd0] at this
    simp [Nat.ofDigits] at this
    exact ha this
  · -- both nonzero
    have hdig : Nat.digits 10 a = Nat.digits 10 b :=
      map_digitChar10_inj (fun d hd => Nat.digits_lt_base (by norm_num) hd)
        (fun d hd => Nat.digits_lt_base (by norm_num) hd) h
    calc a = Nat.ofDigits 10 (Nat.digits 10 a) := (Nat.ofDigits_digits 10 a).symm
    _ = Nat.ofDigits 10 (Nat.digits 10 b) := by rw [hdig]
    _ = b := Nat.ofDigits_digits 10 b

theorem natStr_inj : Function.Injective natStr := by
  intro a b h
  exact natChars_inj (congrArg String.data h)

theorem append_natStr_inj {base : String} {a b : ℕ}
    (h : base ++ natStr a = base ++ natStr b) : a = b := by
  have hd := congrArg String.data h
  simp only [String.data_append] at hd
  exact natStr_inj (congrArg String.mk (List.append_cancel_left hd))

/-- Python whitespace characters (the class matched by `\s` and stripped by
`str.strip()`): space, tab, newline, carriage return, vertical tab, form feed. -/
def isPySpace (c : Char) : Bool :=
  c = ' ' || c = '\t' || c = '\n' || c = '\r' || c = Char.ofNat 11 || c = Char.ofNat 12

/-- Python `str.strip()`: remove leading and trailing whitespace. -/
def pyStrip (s : String) : String :=
  ⟨((s.data.dropWhile isPySpace).reverse.dropWhile isPySpace).reverse⟩

/-- Python slice `s[:n]`. -/
def pyTake (s : String) (n : ℕ) : String := ⟨s.data.take n⟩

/-- Python slice `s[i:j]`. -/
def pySlice (s : String) (i j : ℕ) : String := ⟨(s.data.take j).drop i⟩

/-- Python slice `s[i:]`. -/
def pyDrop (s : String) (i : ℕ) : String := ⟨s.data.drop i⟩

/-- Python substring test `needle in hay` on character lists. -/
def listContainsSub (needle : List Char) : List Char → Bool
  | [] => needle.isEmpty
  | c :: rest => needle.isPrefixOf (c :: rest) || listContainsSub needle rest

/-- Python substring test `needle in hay`. -/
def pyContainsSub (hay needle : String) : Bool := listContainsSub needle.data hay.data

/-- Python `str.lower()` (over the code points, as Python does). -/
def pyLower (s : String) : String := ⟨s.data.map Char.toLower⟩

/-- Split a character list at every character satisfying `p`, keeping empty
segments (the behaviour of Python `str.split(sep)` for a one-character
separator when `p` tests that character). -/
def splitChars (p : Char → Bool) : List Char → List (List Char)
  | [] => [[]]
  | c :: rest =>
      match splitChars p rest with
      | [] => [[c]]
      | seg :: segs => if p c then [] :: seg :: segs else (c :: seg) :: segs

/-- Python `text.split('\n')`. -/
def pyLines (s : String) : List String := (splitChars (· = '
') s.data).map (fun l => ⟨l⟩)

/-- Python `str.split()` with no argument: split on whitespace runs,
discarding empty pieces. -/
def pySplitWs (s : String) : List String :=
  ((splitChars isPySpace s.data).map (fun l => (⟨l⟩ : String))).filter (· ≠ "")

/-- Python `str.endswith(suffix)`. -/
def pyEndsWith (s suffix : String) : Bool := suffix.data.isSuffixOf s.data

/-- Python `range(start, stop, step)` for a positive step. -/
def pyRange (start stop step : ℕ) : List ℕ :=
  (List.range ((stop - start + step - 1) / step)).map (fun j => start + step * j)

/-- A Python dict lookup `d.get(k, default)` over an association list whose
keys are unique (all dicts built by the embedded code have unique keys). -/
def dictGetD {α : Type} : List (String × α) → String → α → α
  | [], _, d => d
  | p :: rest, k, d => if p.1 = k then p.2 else dictGetD rest k d

/-! ### Data model: metadata dictionaries (ProvenanceRecord) -/

/-- A value stored in a metadata dict: the embedded code stores strings and
(for `item`/`chunk_id`) integer indices. -/
inductive MValue where
  | s (v : String)
  | n (v : ℕ)
deriving DecidableEq

/-- A provenance metadata record, as the Python dicts built in
`src/ingestion.py` (insertion-ordered key/value pairs, keys unique). -/
abbrev Metadata := List (String × MValue)

/-- Render a metadata value the way a Python f-string does. -/
def mvStr : MValue → String
  | .s v => v
  | .n v => natStr v

/-! ### Batch runner (`src/core/processing.py`) -/

/-- One per-sentence analysis result: the dict built by
`process_requirements`.  `status` is absent (`none`) on the
classification-error path, mirroring the dict built there; `error` is only
present on that path. -/
structure BatchResult where
  sentence : String
  label : String
  score : ℚ
  rewrite : Option String
  evidence : List Metadata
  status : Option String
  error : Option String
deriving DecidableEq

/-- The labels treated as "clear" by the branch
`if label in ["Clear", "Clean", "LABEL_0"]`. -/
def clearLabels : List String := ["Clear", "Clean", "LABEL_0"]

/-- The body of the batch loop for a single sentence
(`process_requirements`, lines 50–96).  `classify` models
`detector.predict` (fallible); `resolver` models the optional
`ResolutionPipeline` whose `resolve_ambiguity` (called with the sentence and
`settings['show_explanation']`) is fallible. -/
def processOne (classify : String → Except String (String × ℚ))
    (resolver : Option (String → Bool → Except String (String × List Metadata)))
    (show_explanation : Bool) (sentence : String) : BatchResult :=
  match classify sentence with
  | .error e =>
      { sentence := sentence, label := "Error", score := 0, rewrite := none,
        evidence := [], status := none, error := some e }
  | .ok (label, score) =>
      let base : BatchResult :=
        { sentence := sentence, label := label, score := score, rewrite := none,
          evidence := [], status := none, error := none }
      if label ∈ clearLabels then { base with status := some "clear" }
      else
        match resolver with
        | none => { base with status := some "ambiguous" }
        | some resolve =>
            match resolve sentence show_explanation with
            | .ok (rw1, ev1) =>
                { base with
                  status := some "ambiguous", rewrite := some rw1,
                  evidence := if ev1.isEmpty then [] else ev1.take 5 }
            | .error e =>
                { base with
                  status := some "ambiguous", rewrite := some ("Error: " ++ e) }

/-- The batch loop (`for idx, sentence in enumerate(sentences)`): before each
item the stop flag is read (`st.session_state.processing_stopped`, modelled
as the externally-set function `stopFlag` of the iteration index); if set the
loop breaks.  Returns the accumulated results together with the list of
sentences that were actually submitted to the classifier. -/
def runBatch (stopFlag : ℕ → Bool) (step : String → BatchResult) :
    ℕ → List String → List BatchResult × List String
  | _, [] => ([], [])
  | idx, s :: rest =>
      if stopFlag idx then ([], [])
      else
        let r := step s
        let p := runBatch stopFlag step (idx + 1) rest
        (r :: p.1, s :: p.2)

/-- Sentence splitting (`src/utils/text.py`, `re.split(r'(?<=[.?!])\s+', text)`):
scan the text; a maximal whitespace run whose preceding character is `.`, `?`
or `!` is a split point.  `acc` holds the current segment reversed, so its
head is the character just before the scan position (the lookbehind). -/
def sentenceSegs : ℕ → List Char → List Char → List (List Char)
  | _, acc, [] => [acc.reverse]
  | 0, acc, cs => [acc.reverse ++ cs]
  | fuel + 1, acc, c :: rest =>
      if (match acc with
          | p :: _ => p = '.' || p = '?' || p = '!'
          | [] => false) && isPySpace c then
        let run := ((c :: rest).takeWhile isPySpace).length
        acc.reverse :: sentenceSegs fuel [] ((c :: rest).drop run)
      else sentenceSegs fuel (c :: acc) rest

/-- `split_sentences` from `src/utils/text.py`. -/
def split_sentences (text : String) : List String :=
  ((sentenceSegs text.data.length [] text.data).map (fun l => pyStrip ⟨l⟩)).filter (· ≠ "")

/-- Outcome of `process_requirements`: the accumulated
`st.session_state.analysis_results`, the sentences submitted to the
classifier, and the returned success flag. -/
structure BatchOutcome where
  results : List BatchResult
  classified : List String
  success : Bool
deriving DecidableEq

/-- `process_requirements` from `src/core/processing.py`: guards for empty
input and for no detected sentences, then the batch loop. -/
def process_requirements (stopFlag : ℕ → Bool)
    (classify : String → Except String (String × ℚ))
    (resolver : Option (String → Bool → Except String (String × List Metadata)))
    (show_explanation : Bool) (text_input : String) : BatchOutcome :=
  if text_input = "" then ⟨[], [], false⟩
  else
    let sentences := split_sentences text_input
    if sentences.length = 0 then ⟨[], [], false⟩
    else
      let p := runBatch stopFlag (processOne classify resolver show_explanation) 0 sentences
      ⟨p.1, p.2, true⟩

/-- The loop with a stop flag that becomes set from iteration `k` onwards
processes exactly the first `k - idx` sentences. -/
theorem runBatch_stop_after (step : String → BatchResult) (k : ℕ) :
    ∀ (sentences : List String) (idx : ℕ),
      runBatch (fun i => decide (k ≤ i)) step idx sentences =
        ((sentences.take (k - idx)).map step, sentences.take (k - idx)) := by
  intro sentences
  induction sentences with
  | nil => intro idx; simp [runBatch]
  | cons s rest ih =>
      intro idx
      by_cases h : k ≤ idx
      · simp [runBatch, h, Nat.sub_eq_zero_of_le h]
      · have hk : k - idx = (k - (idx + 1)) + 1 := by omega
        simp [runBatch, h, ih (idx + 1), hk]

/-- The loop with a never-set stop flag processes every sentence. -/
theorem runBatch_no_stop (step : String → BatchResult) :
    ∀ (sentences : List String) (idx : ℕ),
      runBatch (fun _ => false) step idx sentences = (sentences.map step, sentences) := by
  intro sentences
  induction sentences with
  | nil => intro idx; simp [runBatch]
  | cons s rest ih => intro idx; simp [runBatch, ih (idx + 1)]

/-- Concrete classifier used to witness the batch-runner theorems. -/
def demoClassify : String → Except String (String × ℚ) := fun s =>
  if s = "bad" then .error "boom"
  else if s = "fine." then .ok ("Clear", 9/10)
  else .ok ("Ambiguous", 3/4)

/-- Concrete resolver used to witness the batch-runner theorems. -/
def demoResolve : String → Bool → Except String (String × List Metadata) := fun s _ =>
  if s = "rbad" then .error "rfail"
  else .ok ("rewritten", [[("source", MValue.s "f.json")]])

/-- Ten concrete sentences used to witness the cancellation theorem. -/
def demoSentences : List String :=
  ["s1.", "s2.", "s3.", "s4.", "s5.", "s6.", "s7.", "s8.", "s9.", "s10."]

/-- Claim C2: before each sentence the stop flag is checked; once it is set
(from iteration `k` on, modelling a stop request injected after item `k`
completes) the run terminates at once, keeping the already-accumulated
results and never classifying a later sentence.  In particular with 10
sentences and a stop request set after item 3, exactly 3 results are
produced and sentences 4–10 are never submitted to the classifier. -/
theorem claim_C2_stop_flag :
    (∀ (classify : String → Except String (String × ℚ))
       (resolver : Option (String → Bool → Except String (String × List Metadata)))
       (expl : Bool) (k : ℕ) (sentences : List String),
        runBatch (fun i => decide (k ≤ i)) (processOne classify resolver expl) 0 sentences =
          ((sentences.take k).map (processOne classify resolver expl), sentences.take k)) ∧
    (∀ (classify : String → Except String (String × ℚ))
       (resolver : Option (String → Bool → Except String (String × List Metadata)))
       (expl : Bool) (sentences : List String), sentences.length = 10 →
        (runBatch (fun i => decide (3 ≤ i)) (processOne classify resolver expl) 0
            sentences).1.length = 3 ∧
        (runBatch (fun i => decide (3 ≤ i)) (processOne classify resolver expl) 0
            sentences).2 = sentences.take 3) := by
  constructor
  · intro classify resolver expl k sentences
    simpa using runBatch_stop_after (processOne classify resolver expl) k sentences 0
  · intro classify resolver expl sentences hlen
    have h := runBatch_stop_after (processOne classify resolver expl) 3 sentences 0
    simp only [Nat.sub_zero] at h
    rw [h]
    constructor
    · simp [hlen]
    · rfl

theorem claim_C2_stop_flag_witness :
    demoSentences.length = 10 ∧
    (runBatch (fun i => decide (3 ≤ i)) (processOne demoClassify (some demoResolve) true) 0
        demoSentences).1.length = 3 ∧
    (runBatch (fun i => decide (3 ≤ i)) (processOne demoClassify (some demoResolve) true) 0
        demoSentences).2 = demoSentences.take 3 :=
  ⟨by decide,
   claim_C2_stop_flag.2 demoClassify (some demoResolve) true demoSentences (by decide)⟩

/-- Claim C3: per-item failure isolation.  With the stop flag never set the
run processes every sentence and completes; a classification exception for a
sentence becomes a result with label `Error`, score `0.0` and the error
recorded; a resolution exception for an ambiguous sentence becomes a result
whose rewrite is `"Error: "` plus the message, status staying `ambiguous`
and evidence empty.  No per-item exception escapes the loop (the loop is a
total function). -/
theorem claim_C3_failure_isolation :
    (∀ (classify : String → Except String (String × ℚ))
       (resolver : Option (String → Bool → Except String (String × List Metadata)))
       (expl : Bool) (sentences : List String),
        runBatch (fun _ => false) (processOne classify resolver expl) 0 sentences =
          (sentences.map (processOne classify resolver expl), sentences)) ∧
    (∀ (classify : String → Except String (String × ℚ))
       (resolver : Option (String → Bool → Except String (String × List Metadata)))
       (expl : Bool) (s e : String), classify s = .error e →
        processOne classify resolver expl s =
          ⟨s, "Error", 0, none, [], none, some e⟩) ∧
    (∀ (classify : String → Except String (String × ℚ))
       (resolve : String → Bool → Except String (String × List Metadata))
       (expl : Bool) (s lbl : String) (sc : ℚ) (e : String),
        classify s = .ok (lbl, sc) → lbl ∉ clearLabels → resolve s expl = .error e →
        processOne classify (some resolve) expl s =
          ⟨s, lbl, sc, some ("Error: " ++ e), [], some "ambiguous", none⟩) := by
  refine ⟨?_, ?_, ?_⟩
  · intro classify resolver expl sentences
    exact runBatch_no_stop (processOne classify resolver expl) sentences 0
  · intro classify resolver expl s e h
    simp [processOne, h]
  · intro classify resolve expl s lbl sc e hc hl hr
    simp [processOne, hc, hl, hr]

theorem claim_C3_failure_isolation_witness :
    (runBatch (fun _ => false) (processOne demoClassify (some demoResolve) true) 0
        ["s1.", "bad", "rbad"] =
      (["s1.", "bad", "rbad"].map (processOne demoClassify (some demoResolve) true),
        ["s1.", "bad", "rbad"])) ∧
    processOne demoClassify (some demoResolve) true "bad" =
      ⟨"bad", "Error", 0, none, [], none, some "boom"⟩ ∧
    processOne demoClassify (some demoResolve) true "rbad" =
      ⟨"rbad", "Ambiguous", 3/4, some ("Error: " ++ "rfail"), [], some "ambiguous", none⟩ :=
  ⟨claim_C3_failure_isolation.1 demoClassify (some demoResolve) true ["s1.", "bad", "rbad"],
   claim_C3_failure_isolation.2.1 demoClassify (some demoResolve) true "bad" "boom" rfl,
   claim_C3_failure_isolation.2.2 demoClassify demoResolve true "rbad" "Ambiguous" (3/4) "rfail"
     rfl (by decide) rfl⟩

/-! ### Report generation (`src/utils/report.py`) -/

/-- Python `"=" * n`. -/
def eqChars (n : ℕ) : String := ⟨List.replicate n '='⟩

/-- Python `"-" * n`. -/
def dashChars (n : ℕ) : String := ⟨List.replicate n '-'⟩

/-- Fixed-point formatting `f"{q:.df}"` with `d` fractional digits.  Models
round-half-up; the exact IEEE-754 round-half-even behaviour of the
underlying Python float is not modelled (no claim depends on the digits). -/
def fmtFixed (d : ℕ) (q : ℚ) : String :=
  let scale : ℚ := (10 : ℚ) ^ d
  let n : ℤ := ⌊q * scale + 1/2⌋
  let whole : ℤ := n / (10 : ℤ) ^ d
  let frac : ℕ := (n % (10 : ℤ) ^ d).natAbs
  let fs := natStr frac
  intStr whole ++ "." ++ ⟨List.replicate (d - fs.data.length) (Char.ofNat 48)⟩ ++ fs

/-- Python `f"{q:.2%}"`. -/
def fmtPercent2 (q : ℚ) : String := fmtFixed 2 (q * 100) ++ "%"

/-- One evidence line of the report
(`f"  {i}. {source} ({content_type}) - Page: {page}"`, with
`source = item.get('source', 'Unknown')`,
`content_type = item.get('content_type', item.get('type', 'General'))` and
`page = item.get('page', 'N/A')`). -/
def evidenceLine (i : ℕ) (item : Metadata) : String :=
  let source := mvStr (dictGetD item "source" (.s "Unknown"))
  let content_type := mvStr (dictGetD item "content_type" (dictGetD item "type" (.s "General")))
  let page := mvStr (dictGetD item "page" (.s "N/A"))
  "  " ++ natStr i ++ ". " ++ source ++ " (" ++ content_type ++ ") - Page: " ++ page

/-- The per-requirement section of the report. -/
def resultBlock (idx : ℕ) (r : BatchResult) : List String :=
  ["Requirement " ++ natStr idx, dashChars 80,
   "Original: " ++ r.sentence,
   "Status: " ++ r.label,
   "Confidence: " ++ fmtPercent2 r.score, ""]
  ++ (if (r.rewrite.getD "") ≠ "" then ["Suggested Rewrite: " ++ r.rewrite.getD "", ""] else [])
  ++ (if r.evidence ≠ [] then
        "Retrieved Context:" :: (r.evidence.enum.map (fun p => evidenceLine (p.1 + 1) p.2)) ++ [""]
      else [])
  ++ [""]

/-- `generate_report` from `src/utils/report.py`.  `now` is the external
clock value (`datetime.now().strftime(...)`).  The ambiguity-rate line
divides by `total`; with an empty results list Python raises
`ZeroDivisionError`, modelled as the `Except.error` value. -/
def generate_report (now : String) (results : List BatchResult) : Except String String :=
  let header := [eqChars 80, "SRS AMBIGUITY ANALYSIS REPORT", "Generated: " ++ now,
    eqChars 80, ""]
  let total := results.length
  let clear_count := results.countP (fun r => r.label ∈ clearLabels)
  let ambiguous_count := total - clear_count
  if total = 0 then .error "ZeroDivisionError: division by zero"
  else
    let summary := ["SUMMARY", dashChars 80,
      "Total Requirements: " ++ natStr total,
      "Clear Requirements: " ++ natStr clear_count,
      "Ambiguous Requirements: " ++ natStr ambiguous_count,
      "Ambiguity Rate: " ++ fmtFixed 1 ((ambiguous_count : ℚ) / (total : ℚ) * 100) ++ "%", ""]
    let detailed := ["DETAILED RESULTS", eqChars 80, ""]
    let blocks := results.enum.flatMap (fun p => resultBlock (p.1 + 1) p.2)
    .ok ("\n".intercalate (header ++ summary ++ detailed ++ blocks))

/-- A concrete singleton results list used as a witness. -/
def demoResults : List BatchResult :=
  [⟨"The system shall respond fast.", "Ambiguous", 3/4, some "resp", [], some "ambiguous", none⟩]

/-- Claim C10: `generate_report` fails with a division-by-zero error on an
empty results list (the ambiguity-rate computation divides by the total),
and succeeds on every non-empty results list — so a non-empty results list
is exactly the precondition for the export to succeed. -/
theorem claim_C10_report_empty_div :
    (∀ now : String,
        generate_report now [] = .error "ZeroDivisionError: division by zero") ∧
    (∀ (now : String) (results : List BatchResult), results ≠ [] →
        (generate_report now results).isOk = true) := by
  constructor
  · intro now
    rfl
  · intro now results h
    have : results.length ≠ 0 := by simpa using h
    simp [generate_report, this, Except.isOk, Except.toBool]

theorem claim_C10_report_empty_div_witness :
    generate_report "2026-10-12 00:00:00" [] =
      .error "ZeroDivisionError: division by zero" ∧
    (generate_report "2026-10-12 00:00:00" demoResults).isOk = true :=
  ⟨claim_C10_report_empty_div.1 "2026-10-12 00:00:00",
   claim_C10_report_empty_div.2 "2026-10-12 00:00:00" demoResults (by decide)⟩

/-! ### Hybrid retrieval and resolution (`src/resolution.py`) -/

/-- The RRF score-dict update `scores[doc] = scores.get(doc, 0) + v`: an
existing key keeps its position, a new key is appended (Python dict
insertion order). -/
def addScore : List (String × ℚ) → String → ℚ → List (String × ℚ)
  | [], doc, v => [(doc, v)]
  | p :: rest, doc, v =>
      if p.1 = doc then (p.1, p.2 + v) :: rest else p :: addScore rest doc v

/-- Accumulate one ranked candidate list into the score dict
(`for rank, doc in enumerate(docs): scores[doc] = scores.get(doc, 0) + 1/(rank+60)`),
with ranks starting at `i` (the loop starts at `i = 0`). -/
def rrfAddFrom (m : List (String × ℚ)) (i : ℕ) (docs : List String) :
    List (String × ℚ) :=
  (docs.enumFrom i).foldl (fun acc rd => addScore acc rd.2 (1 / ((rd.1 : ℚ) + 60))) m

/-- One full `for rank, doc in enumerate(docs)` accumulation pass. -/
def rrfAddList (m : List (String × ℚ)) (docs : List String) : List (String × ℚ) :=
  rrfAddFrom m 0 docs

/-- The fused RRF score dict built from the semantic (vector) list and the
lexical (BM25) list, in that order. -/
def fuseScores (vector_docs bm25_docs : List String) : List (String × ℚ) :=
  rrfAddList (rrfAddList [] vector_docs) bm25_docs

/-- Relation modelling Python's stable `sorted(..., reverse=True)` by key
`f`: each element is tagged with its original position, and the sort orders
by key descending with ties broken by original position ascending — which
is exactly what a stable descending sort produces. -/
def stableDescRel {α : Type} (f : α → ℚ) (x y : ℕ × α) : Prop :=
  f y.2 < f x.2 ∨ (f x.2 = f y.2 ∧ x.1 ≤ y.1)

instance {α : Type} (f : α → ℚ) : DecidableRel (stableDescRel f) :=
  fun x y => decidable_of_iff (f y.2 < f x.2 ∨ (f x.2 = f y.2 ∧ x.1 ≤ y.1)) Iff.rfl

instance {α : Type} (f : α → ℚ) : IsTotal (ℕ × α) (stableDescRel f) := by
  constructor
  intro x y
  rcases lt_trichotomy (f x.2) (f y.2) with h | h | h
  · exact Or.inr (Or.inl h)
  · rcases Nat.le_total x.1 y.1 with h2 | h2
    · exact Or.inl (Or.inr ⟨h, h2⟩)
    · exact Or.inr (Or.inr ⟨h.symm, h2⟩)
  · exact Or.inl (Or.inl h)

instance {α : Type} (f : α → ℚ) : IsTrans (ℕ × α) (stableDescRel f) := by
  constructor
  intro a b c hab hbc
  rcases hab with h1 | ⟨e1, l1⟩ <;> rcases hbc with h2 | ⟨e2, l2⟩
  · exact Or.inl (h2.trans h1)
  · exact Or.inl (by rw [← e2]; exact h1)
  · exact Or.inl (by rw [e1]; exact h2)
  · exact Or.inr ⟨e1.trans e2, l1.trans l2⟩

/-- Python's stable descending sort `sorted(l, key=f, reverse=True)`. -/
def pySortedDescBy {α : Type} (f : α → ℚ) (l : List α) : List α :=
  (l.enum.insertionSort (stableDescRel f)).map Prod.snd

/-- The RRF fusion of `retrieve_hybrid` (`src/resolution.py` lines 66–73):
build the score dict from both lists, then
`sorted(scores.keys(), key=lambda x: scores[x], reverse=True)[:top_k]`. -/
def rrfFuse (vector_docs bm25_docs : List String) (top_k : ℕ) : List String :=
  let scores := fuseScores vector_docs bm25_docs
  ((pySortedDescBy (fun p => p.2) scores).map Prod.fst).take top_k

/-- The in-memory state and external boundaries of `ResolutionPipeline`.
`vectorQuery` models embedding the query and querying ChromaDB
(`collection.query(...)` and taking `['documents'][0]`); `bm25TopN` models
`bm25.get_top_n(tokenized_query, documents, n)`; `rerankPredict` models
`reranker.predict(pairs)` (one score per pair); `generate` models the
fallible Gemini `generate_content` call. -/
structure Pipeline where
  documents : List String
  metadatas : List Metadata
  content_to_meta : List (String × Metadata)
  vectorQuery : String → ℕ → List String
  bm25TopN : List String → List String → ℕ → List String
  rerankPredict : List (String × String) → List ℚ
  generate : String → Except String String

/-- `retrieve_hybrid` from `src/resolution.py`: empty corpus returns `[]`
immediately; otherwise fuse the vector candidates and the BM25 candidates
(query tokenized by `query.lower().split()`). -/
def retrieve_hybrid (p : Pipeline) (query : String) (top_k : ℕ := 10) : List String :=
  if p.documents.isEmpty then []
  else
    let vector_docs := p.vectorQuery query top_k
    let tokenized_query := pySplitWs (pyLower query)
    let bm25_docs := p.bm25TopN tokenized_query p.documents top_k
    rrfFuse vector_docs bm25_docs top_k

/-- Counts of external calls made during one `resolve_ambiguity` run: the
cross-encoder `predict` call and the generation-backend call. -/
structure CallLog where
  rerankCalls : ℕ
  generateCalls : ℕ
deriving DecidableEq

/-- The reranking step of `resolve_ambiguity`: score all (text, candidate)
pairs, `sorted(zip(scores, candidates), key=lambda x: x[0], reverse=True)`,
keep the texts of the top five. -/
def resolveBestDocs (p : Pipeline) (text : String) : List String :=
  let candidates := retrieve_hybrid p text 10
  let pairs := candidates.map (fun doc => (text, doc))
  let scores := p.rerankPredict pairs
  ((pySortedDescBy (fun x => x.1) (scores.zip candidates)).take 5).map (fun x => x.2)

/-- The verbose instruction block (`include_explanation = True`). -/
def explanatoryInstructions : String :=
  "\n                            TASK:\n                            1. Explain specifically why the requirement is ambiguous.\n                            2. Provide the rewritten requirement clearly.\n                            "

/-- The strict instruction block (`include_explanation = False`). -/
def terseInstructions : String :=
  "\n                            TASK:\n                            1. Output ONLY the rewritten requirement sentence.\n                            2. Do NOT provide explanations, notes, or introductory text.\n                            3. Do NOT use labels like \"Rewritten:\".\n                            "

/-- The grounded prompt f-string of `resolve_ambiguity`. -/
def buildPrompt (context_str instructions text : String) : String :=
  "\n                    You are a QA Specialist. Rewrite the ambiguous requirement to be clear using the context.\n                    CONTEXT:\n                    "
    ++ context_str ++ "\n\n                    " ++ instructions
    ++ "\n\n                    Requirement: \"" ++ text ++ "\"\n                "

/-- The prompt sent to the generation backend for a given text and mode. -/
def resolvePrompt (p : Pipeline) (text : String) (include_explanation : Bool) : String :=
  buildPrompt ("\n- ".intercalate (resolveBestDocs p text))
    (if include_explanation then explanatoryInstructions else terseInstructions) text

/-- `resolve_ambiguity` from `src/resolution.py`, additionally reporting how
many times the reranker and the generation backend were invoked. -/
def resolve_ambiguity (p : Pipeline) (text : String) (include_explanation : Bool) :
    (String × List Metadata) × CallLog :=
  let candidates := retrieve_hybrid p text 10
  if candidates.isEmpty then (("No relevant context found.", []), ⟨0, 0⟩)
  else
    let best_docs := resolveBestDocs p text
    let evidence := best_docs.map (fun doc => dictGetD p.content_to_meta doc [])
    match p.generate (resolvePrompt p text include_explanation) with
    | .ok t => ((t, evidence), ⟨1, 1⟩)
    | .error e => (("API Error: " ++ e, []), ⟨1, 1⟩)

/-- Spec-side reciprocal-rank contribution of one ranked list, ranks
starting at `i`: the sum of `1/(rank + 60)` over the positions where `doc`
occurs. -/
def rrfContribFrom (i : ℕ) (docs : List String) (doc : String) : ℚ :=
  match docs with
  | [] => 0
  | d :: rest => (if d = doc then 1 / ((i : ℚ) + 60) else 0) + rrfContribFrom (i + 1) rest doc

/-- Spec-side reciprocal-rank contribution with 0-based ranks. -/
def rrfContrib (docs : List String) (doc : String) : ℚ := rrfContribFrom 0 docs doc

/-- The elements of `l` in first-seen order, duplicates removed keeping the
first occurrence (Python dict key order under repeated insertion). -/
def firstSeen (l : List String) : List String :=
  l.foldl (fun acc x => if x ∈ acc then acc else acc ++ [x]) []

theorem dictGetD_addScore (m : List (String × ℚ)) (doc k : String) (v : ℚ) :
    dictGetD (addScore m doc v) k 0 = dictGetD m k 0 + (if k = doc then v else 0) := by
  induction m with
  | nil =>
      by_cases h : k = doc
      · subst h; simp [addScore, dictGetD]
      · simp [addScore, dictGetD, h, Ne.symm h]
  | cons p rest ih =>
      by_cases h1 : p.1 = doc
      · by_cases h2 : p.1 = k
        · have hk : k = doc := by rw [← h2, h1]
          simp [addScore, dictGetD, h1, h2, hk]
        · have hk : ¬ k = doc := fun hh => h2 (by rw [h1, ← hh])
          have hk2 : ¬ doc = k := fun hh => hk hh.symm
          simp [addScore, dictGetD, h1, h2, hk, hk2]
      · by_cases h2 : p.1 = k
        · have hk : ¬ k = doc := fun hh => h1 (by rw [h2, hh])
          simp [addScore, dictGetD, h1, h2, hk]
        · simp [addScore, dictGetD, h1, h2, ih]

theorem rrfAddFrom_cons (m : List (String × ℚ)) (i : ℕ) (d : String) (rest : List String) :
    rrfAddFrom m i (d :: rest) =
      rrfAddFrom (addScore m d (1 / ((i : ℚ) + 60))) (i + 1) rest := by
  simp [rrfAddFrom, List.enumFrom_cons]

theorem dictGetD_rrfAddFrom (k : String) :
    ∀ (docs : List String) (m : List (String × ℚ)) (i : ℕ),
      dictGetD (rrfAddFrom m i docs) k 0 = dictGetD m k 0 + rrfContribFrom i docs k := by
  intro docs
  induction docs with
  | nil => intro m i; simp [rrfAddFrom, rrfContribFrom]
  | cons d rest ih =>
      intro m i
      rw [rrfAddFrom_cons, ih, dictGetD_addScore]
      by_cases h : d = k
      · subst h; simp [rrfContribFrom]; ring
      · simp [rrfContribFrom, h, Ne.symm h]

/-- CODE = SPEC for the fused score of every candidate: the dict built by
the two accumulation loops assigns each document the sum of its
reciprocal-rank contributions from the two lists. -/
theorem dictGetD_fuseScores (v b : List String) (doc : String) :
    dictGetD (fuseScores v b) doc 0 = rrfContrib v doc + rrfContrib b doc := by
  simp [fuseScores, rrfAddList, rrfContrib, dictGetD_rrfAddFrom, dictGetD]

theorem map_fst_addScore (m : List (String × ℚ)) (doc : String) (v : ℚ) :
    (addScore m doc v).map Prod.fst =
      if doc ∈ m.map Prod.fst then m.map Prod.fst else m.map Prod.fst ++ [doc] := by
  induction m with
  | nil => simp [addScore]
  | cons p rest ih =>
      by_cases h : p.1 = doc
      · simp [addScore, h]
      · by_cases hm : doc ∈ rest.map Prod.fst <;>
          simp [addScore, h, ih, hm, Ne.symm h]

theorem map_fst_rrfAddFrom :
    ∀ (docs : List String) (m : List (String × ℚ)) (i : ℕ),
      (rrfAddFrom m i docs).map Prod.fst =
        docs.foldl (fun acc x => if x ∈ acc then acc else acc ++ [x]) (m.map Prod.fst) := by
  intro docs
  induction docs with
  | nil => intro m i; simp [rrfAddFrom]
  | cons d rest ih =>
      intro m i
      rw [rrfAddFrom_cons, ih, map_fst_addScore]
      simp

/-- The keys of the fused score dict are the candidates in first-seen order
(vector list first, then BM25 list). -/
theorem map_fst_fuseScores (v b : List String) :
    (fuseScores v b).map Prod.fst = firstSeen (v ++ b) := by
  simp [fuseScores, rrfAddList, map_fst_rrfAddFrom, firstSeen, List.foldl_append]

/-- The tagged stable descending sort is sorted: scores weakly decrease
along the output, and entries with equal scores appear in strictly
increasing original (first-seen) position. -/
theorem pairwise_sorted_tagged {α : Type} (f : α → ℚ) (l : List α) :
    (l.enum.insertionSort (stableDescRel f)).Pairwise
      (fun x y => f y.2 ≤ f x.2 ∧ (f x.2 = f y.2 → x.1 < y.1)) := by
  have hs : List.Pairwise (stableDescRel f) (l.enum.insertionSort (stableDescRel f)) :=
    List.sorted_insertionSort _ _
  have hperm := List.perm_insertionSort (stableDescRel f) l.enum
  have hnd : ((l.enum.insertionSort (stableDescRel f)).map Prod.fst).Nodup := by
    have h1 : (l.enum.map Prod.fst).Nodup := by
      rw [List.enum_map_fst]; exact List.nodup_range _
    exact ((hperm.map Prod.fst).nodup_iff).mpr h1
  have hne : List.Pairwise (fun x y : ℕ × α => x.1 ≠ y.1)
      (l.enum.insertionSort (stableDescRel f)) := List.pairwise_map.mp hnd
  refine (hs.and hne).imp ?_
  rintro x y ⟨hrel, hne1⟩
  rcases hrel with h | ⟨he, hle⟩
  · refine ⟨le_of_lt h, fun heq => absurd h ?_⟩
    rw [heq]
    exact lt_irrefl _
  · exact ⟨le_of_eq he.symm, fun _ => lt_of_le_of_ne hle hne1⟩

/-- Claim C1: `retrieve_hybrid` on a non-empty corpus fuses the semantic
and lexical candidate lists by Reciprocal Rank Fusion — each candidate's
fused score is the sum, over the lists it appears in, of `1/(rank + 60)`
with 0-based rank (0 from a list it is absent from); the returned list is
the candidate set sorted by fused score descending, truncated to `top_k`,
ties kept in first-seen order (the score dict lists candidates in
first-seen order, and ties appear in strictly increasing dict position).
In particular, for semantic list `[A,B,C]` and lexical list `[B,D]`, B
(score `1/61 + 1/60`) is ranked above A (score `1/60`). -/
theorem claim_C1_rrf_fusion :
    (∀ (p : Pipeline) (query : String) (top_k : ℕ), p.documents ≠ [] →
        retrieve_hybrid p query top_k =
          rrfFuse (p.vectorQuery query top_k)
            (p.bm25TopN (pySplitWs (pyLower query)) p.documents top_k) top_k) ∧
    (∀ (v b : List String) (doc : String),
        dictGetD (fuseScores v b) doc 0 = rrfContrib v doc + rrfContrib b doc) ∧
    (∀ v b : List String, (fuseScores v b).map Prod.fst = firstSeen (v ++ b)) ∧
    (∀ v b : List String,
        ((fuseScores v b).enum.insertionSort (stableDescRel (fun p : String × ℚ => p.2))).Pairwise
          (fun x y => y.2.2 ≤ x.2.2 ∧ (x.2.2 = y.2.2 → x.1 < y.1))) ∧
    (rrfFuse ["A", "B", "C"] ["B", "D"] 10 = ["B", "A", "D", "C"] ∧
      dictGetD (fuseScores ["A", "B", "C"] ["B", "D"]) "B" 0 = 1/61 + 1/60 ∧
      dictGetD (fuseScores ["A", "B", "C"] ["B", "D"]) "A" 0 = 1/60) := by
  refine ⟨?_, dictGetD_fuseScores, map_fst_fuseScores, ?_, ?_, ?_, ?_⟩
  · intro p query top_k h
    cases hd : p.documents with
    | nil => exact absurd hd h
    | cons a t => simp [retrieve_hybrid, hd]
  · intro v b
    exact pairwise_sorted_tagged (fun p : String × ℚ => p.2) (fuseScores v b)
  · norm_num [rrfFuse, fuseScores, rrfAddList, rrfAddFrom, addScore, pySortedDescBy,
      stableDescRel, List.insertionSort, List.orderedInsert]
  · norm_num [fuseScores, rrfAddList, rrfAddFrom, addScore, dictGetD]
    decide
  · norm_num [fuseScores, rrfAddList, rrfAddFrom, addScore, dictGetD]

/-- A concrete pipeline with a non-empty corpus, used as a witness. -/
def demoPipeline : Pipeline where
  documents := ["A", "B", "C", "D"]
  metadatas := []
  content_to_meta := []
  vectorQuery := fun _ _ => ["A", "B", "C"]
  bm25TopN := fun _ _ _ => ["B", "D"]
  rerankPredict := fun pairs => pairs.map (fun _ => 1)
  generate := fun _ => .ok "rewritten"

theorem claim_C1_rrf_fusion_witness :
    retrieve_hybrid demoPipeline "q" 10 =
      rrfFuse (demoPipeline.vectorQuery "q" 10)
        (demoPipeline.bm25TopN (pySplitWs (pyLower "q")) demoPipeline.documents 10) 10 :=
  claim_C1_rrf_fusion.1 demoPipeline "q" 10 (by decide)

/-- Claim C7: when retrieval yields no candidates — in particular whenever
the corpus is empty, in which case `retrieve_hybrid` returns `[]`
immediately — `resolve_ambiguity` returns exactly
`("No relevant context found.", [])` with zero reranker and zero
generation-backend calls. -/
theorem claim_C7_no_candidates :
    (∀ (p : Pipeline) (query : String) (k : ℕ), p.documents = [] →
        retrieve_hybrid p query k = []) ∧
    (∀ (p : Pipeline) (text : String) (expl : Bool), retrieve_hybrid p text 10 = [] →
        resolve_ambiguity p text expl = (("No relevant context found.", []), ⟨0, 0⟩)) := by
  constructor
  · intro p query k h
    simp [retrieve_hybrid, h]
  · intro p text expl h
    simp [resolve_ambiguity, h]

/-- A concrete pipeline with an empty corpus, used as a witness. -/
def emptyPipeline : Pipeline where
  documents := []
  metadatas := []
  content_to_meta := []
  vectorQuery := fun _ _ => []
  bm25TopN := fun _ _ _ => []
  rerankPredict := fun _ => []
  generate := fun _ => .ok ""

theorem claim_C7_no_candidates_witness :
    retrieve_hybrid emptyPipeline "q" 10 = [] ∧
    resolve_ambiguity emptyPipeline "q" true = (("No relevant context found.", []), ⟨0, 0⟩) :=
  ⟨claim_C7_no_candidates.1 emptyPipeline "q" 10 rfl,
   claim_C7_no_candidates.2 emptyPipeline "q" true
     (claim_C7_no_candidates.1 emptyPipeline "q" 10 rfl)⟩

/-- Claim C8: when the generation-backend call inside `resolve_ambiguity`
fails, the function returns `("API Error: " ++ message, [])` — the evidence
list is emptied and the failure does not propagate (the function is total
and still returns a value). -/
theorem claim_C8_api_error :
    ∀ (p : Pipeline) (text : String) (expl : Bool) (e : String),
      retrieve_hybrid p text 10 ≠ [] →
      p.generate (resolvePrompt p text expl) = .error e →
      resolve_ambiguity p text expl = (("API Error: " ++ e, []), ⟨1, 1⟩) := by
  intro p text expl e hne hg
  have hf : (retrieve_hybrid p text 10).isEmpty = false := by
    cases hd : retrieve_hybrid p text 10 with
    | nil => exact absurd hd hne
    | cons a t => rfl
  simp [resolve_ambiguity, hf, hg]

/-- A concrete pipeline whose generation backend always fails. -/
def failGenPipeline : Pipeline where
  documents := ["ctx"]
  metadatas := []
  content_to_meta := []
  vectorQuery := fun _ _ => ["ctx"]
  bm25TopN := fun _ _ _ => ["ctx"]
  rerankPredict := fun pairs => pairs.map (fun _ => 1)
  generate := fun _ => .error "quota exceeded"

theorem claim_C8_api_error_witness :
    resolve_ambiguity failGenPipeline "req" false =
      (("API Error: " ++ "quota exceeded", []), ⟨1, 1⟩) :=
  claim_C8_api_error failGenPipeline "req" false "quota exceeded" (by decide) rfl

/-! ### Document parser (`src/ingestion.py`) -/

/-- `is_low_information_page` from `src/ingestion.py`: filters short pages,
pages with fewer than five non-blank lines, table-of-contents-like pages
under 500 characters, and reference/bibliography pages. -/
def is_low_information_page (text : String) : Bool :=
  let text_lower := pyStrip (pyLower text)
  if text.length < 200 then true
  else if (((pyLines text).map pyStrip).filter (· ≠ "")).length < 5 then true
  else if (["table of contents", "contents", "page", "chapter", "section"].any
      (fun pat => pyContainsSub (pyTake text_lower 200) pat)) && text.length < 500 then
    true
  else if ["references", "bibliography", "works cited"].any
      (fun pat => pyContainsSub (pyTake text_lower 300) pat) then
    true
  else false

/-- Match the regex `\n\s*\n` at the head of `cs` (the separator used by
`re.split(r'\n\s*\n', text)`): a newline, then a greedy whitespace run
backtracking so the match ends on the last newline of the run.  Returns the
match length. -/
def matchBlankSep : List Char → Option ℕ
  | [] => none
  | c :: rest =>
      if c = '\n' then
        let run := rest.takeWhile (fun d => isPySpace d)
        match run.reverse.findIdx? (fun d => d = '\n') with
        | some j => some (run.length - j + 1)
        | none => none
      else none

/-- `re.split(r'\n\s*\n', text)`: split at each leftmost match, scanning on
after it.  `fuel` bounds the recursion (each match consumes at least two
characters); `acc` holds the current piece reversed. -/
def reSplitBlank : ℕ → List Char → List Char → List (List Char)
  | 0, acc, cs => [acc.reverse ++ cs]
  | _ + 1, acc, [] => [acc.reverse]
  | fuel + 1, acc, c :: rest =>
      match matchBlankSep (c :: rest) with
      | some n => acc.reverse :: reSplitBlank fuel [] ((c :: rest).drop n)
      | none => reSplitBlank fuel (c :: acc) rest

/-- The paragraph list of one page:
`[p.strip() for p in re.split(r'\n\s*\n', text) if p.strip()]`. -/
def pageParagraphs (text : String) : List String :=
  ((reSplitBlank (text.data.length + 1) [] text.data).map
    (fun l => pyStrip ⟨l⟩)).filter (· ≠ "")

/-- The mutable state of `semantic_chunk_pdf`'s loops. -/
structure ChunkAcc where
  chunks : List (String × List ℕ)
  current_chunk : String
  current_pages : List ℕ
  pages_used : List ℕ

/-- One paragraph step of `semantic_chunk_pdf` on page number `pg` (Python
page index + 1): flush (or discard, if under the minimum) when appending
would exceed the maximum, then append the paragraph with a `"\n\n"`
separator and record the page number. -/
def paraStep (min_chunk_size max_chunk_size : ℕ) (pg : ℕ) (st : ChunkAcc)
    (para : String) : ChunkAcc :=
  let st :=
    if st.current_chunk ≠ "" ∧ max_chunk_size < st.current_chunk.length + para.length then
      { st with
        chunks := if min_chunk_size ≤ st.current_chunk.length
          then st.chunks ++ [(st.current_chunk, st.current_pages)] else st.chunks,
        current_chunk := "", current_pages := [] }
    else st
  let st :=
    { st with current_chunk :=
        if st.current_chunk ≠ "" then st.current_chunk ++ "\n\n" ++ para else para }
  if pg ∈ st.current_pages then st
  else { st with current_pages := st.current_pages ++ [pg] }

/-- One page step of `semantic_chunk_pdf`: strip the extracted text, skip
low-information pages, fold the paragraphs, record the page as used. -/
def pageStep (min_chunk_size max_chunk_size : ℕ) (st : ChunkAcc) (ip : ℕ × String) :
    ChunkAcc :=
  let text := pyStrip ip.2
  if is_low_information_page text then st
  else
    let st := (pageParagraphs text).foldl (paraStep min_chunk_size max_chunk_size (ip.1 + 1)) st
    { st with pages_used := st.pages_used ++ [ip.1 + 1] }

/-- `semantic_chunk_pdf` from `src/ingestion.py`.  `doc` is the list of
per-page extracted texts (`page.get_text()` is the external PDF boundary).
Returns the chunk list (text with the pages it spans) and the used pages. -/
def semantic_chunk_pdf (doc : List String) (min_chunk_size : ℕ := 200)
    (max_chunk_size : ℕ := 1000) : List (String × List ℕ) × List ℕ :=
  let st := doc.enum.foldl (pageStep min_chunk_size max_chunk_size) ⟨[], "", [], []⟩
  (if st.current_chunk ≠ "" ∧ min_chunk_size ≤ st.current_chunk.length
     then st.chunks ++ [(st.current_chunk, st.current_pages)] else st.chunks,
   st.pages_used)

/-- Invariant preservation along a left fold. -/
theorem foldl_preserves {σ α : Type} (P : σ → Prop) (f : σ → α → σ)
    (hf : ∀ st a, P st → P (f st a)) :
    ∀ (l : List α) (st : σ), P st → P (l.foldl f st) := by
  intro l
  induction l with
  | nil => intro st h; simpa using h
  | cons a t ih => intro st h; exact ih _ (hf st a h)

/-- Every chunk held in the accumulator state meets the minimum, and a
non-empty current chunk always spans at least one page. -/
def ChunkInv (min_chunk_size : ℕ) (st : ChunkAcc) : Prop :=
  (∀ c ∈ st.chunks, min_chunk_size ≤ c.1.length ∧ c.2 ≠ []) ∧
    (st.current_chunk ≠ "" → st.current_pages ≠ [])

/-- The chunks after one paragraph step: unchanged, or (only on overflow
with the minimum met) extended by the flushed current chunk. -/
theorem paraStep_chunks (mn mx pg : ℕ) (st : ChunkAcc) (para : String) :
    (paraStep mn mx pg st para).chunks =
      if st.current_chunk ≠ "" ∧ mx < st.current_chunk.length + para.length then
        (if mn ≤ st.current_chunk.length
          then st.chunks ++ [(st.current_chunk, st.current_pages)] else st.chunks)
      else st.chunks := by
  by_cases hover : st.current_chunk ≠ "" ∧ mx < st.current_chunk.length + para.length
  · by_cases hmin : mn ≤ st.current_chunk.length <;>
      simp [paraStep, hover, hmin, apply_ite ChunkAcc.chunks]
  · simp [paraStep, hover, apply_ite ChunkAcc.chunks]

/-- After a paragraph step the current chunk always spans a page. -/
theorem paraStep_pages_ne (mn mx pg : ℕ) (st : ChunkAcc) (para : String) :
    (paraStep mn mx pg st para).current_pages ≠ [] := by
  simp only [paraStep]
  split_ifs with h1 h2 h3 h4 h5 <;>
    first
      | exact List.ne_nil_of_mem (by assumption)
      | simp

theorem paraStep_inv (mn mx pg : ℕ) (st : ChunkAcc) (para : String)
    (h : ChunkInv mn st) : ChunkInv mn (paraStep mn mx pg st para) := by
  obtain ⟨hchunks, hpages⟩ := h
  constructor
  · intro c hc
    rw [paraStep_chunks] at hc
    split_ifs at hc with h1 h2
    · rcases List.mem_append.mp hc with hm | hm
      · exact hchunks c hm
      · rcases List.mem_singleton.mp hm with rfl
        exact ⟨h2, hpages h1.1⟩
    · exact hchunks c hc
    · exact hchunks c hc
  · intro _
    exact paraStep_pages_ne mn mx pg st para

theorem pageStep_inv (mn mx : ℕ) (st : ChunkAcc) (ip : ℕ × String)
    (h : ChunkInv mn st) : ChunkInv mn (pageStep mn mx st ip) := by
  unfold pageStep
  by_cases hlow : is_low_information_page (pyStrip ip.2)
  · simpa [hlow] using h
  · simp only [hlow, if_false, Bool.false_eq_true]
    have hfold : ChunkInv mn
        ((pageParagraphs (pyStrip ip.2)).foldl (paraStep mn mx (ip.1 + 1)) st) :=
      foldl_preserves (ChunkInv mn) (paraStep mn mx (ip.1 + 1))
        (fun s p hp => paraStep_inv mn mx (ip.1 + 1) s p hp) _ st h
    exact ⟨hfold.1, hfold.2⟩

/-- Every chunk returned by `semantic_chunk_pdf` meets the minimum size and
spans at least one page. -/
theorem semantic_chunk_pdf_chunks (doc : List String) (mn mx : ℕ) :
    ∀ c ∈ (semantic_chunk_pdf doc mn mx).1, mn ≤ c.1.length ∧ c.2 ≠ [] := by
  have hst : ChunkInv mn (doc.enum.foldl (pageStep mn mx) ⟨[], "", [], []⟩) :=
    foldl_preserves (ChunkInv mn) (pageStep mn mx)
      (fun s p hp => pageStep_inv mn mx s p hp) _ _ (by constructor <;> simp)
  intro c hc
  simp only [semantic_chunk_pdf] at hc
  split_ifs at hc with h1
  · rcases List.mem_append.mp hc with hm | hm
    · exact hst.1 c hm
    · rcases List.mem_singleton.mp hm with rfl
      exact ⟨h1.2, hst.2 h1.1⟩
  · exact hst.1 c hc

/-- A single-page, single-paragraph text of 1049 characters (seven
149-character lines joined by single newlines): long enough to pass the
low-information filter, with no blank line, so it forms one paragraph. -/
def bigParagraph : String :=
  ⟨List.intercalate ['\n'] (List.replicate 7 (List.replicate 149 'x'))⟩

set_option maxRecDepth 1000000 in
/-- Counterexample to claim C4 as stated: on a one-page document whose only
paragraph has 1049 characters, `semantic_chunk_pdf` (with the default
bounds 200/1000) emits exactly one chunk of length 1049 — outside the
claimed interval `[200, 1000]`.  The overflow check only guards the
concatenation of the *next* paragraph; a single paragraph longer than the
maximum is emitted whole. -/
theorem claim_C4_counterexample :
    (semantic_chunk_pdf [bigParagraph] 200 1000).1.map (fun c => c.1.length) = [1049] ∧
    ¬ ∀ c ∈ (semantic_chunk_pdf [bigParagraph] 200 1000).1, c.1.length ≤ 1000 := by
  constructor
  · decide
  · decide

/-- Claim C4 (amended): every chunk emitted by the PDF chunker has length
at least the minimum (200 by default) — a chunk is flushed on overflow only
if it already meets the minimum (otherwise it is discarded), and the final
accumulated chunk is flushed only if it meets the minimum.  The
1000-character maximum is not an upper bound on emitted chunk length: the
overflow check ignores the two-character paragraph separator, and a single
paragraph longer than the maximum is emitted whole (see the
counterexample). -/
theorem claim_C4_chunk_min :
    ∀ (doc : List String) (mn mx : ℕ),
      ∀ c ∈ (semantic_chunk_pdf doc mn mx).1, mn ≤ c.1.length := by
  intro doc mn mx c hc
  exact (semantic_chunk_pdf_chunks doc mn mx c hc).1

set_option maxRecDepth 1000000 in
theorem claim_C4_chunk_min_witness : 200 ≤ bigParagraph.length :=
  claim_C4_chunk_min [bigParagraph] 200 1000 (bigParagraph, [1]) (by decide)

/-- Join a list of strings with a separator (Python `sep.join(...)`,
`String.intercalate` re-expressed over character lists so that it is
kernel-computable). -/
def strJoin (sep : String) (xs : List String) : String :=
  ⟨List.intercalate sep.data (xs.map String.data)⟩

/-- A single-quote character (for Python `repr` output). -/
def squote : String := String.singleton (Char.ofNat 39)

/-- A JSON value as loaded by `json.load`. -/
inductive JValue where
  | jstr (s : String)
  | jnum (n : ℤ)
  | jbool (b : Bool)
  | jnull
  | jarr (xs : List JValue)
  | jobj (fields : List (String × JValue))

/-- Field lookup over a JSON object (`k in item` / `item[k]`). -/
def jLookup : List (String × JValue) → String → Option JValue
  | [], _ => none
  | p :: rest, k => if p.1 = k then some p.2 else jLookup rest k

/-- `item.get(k, default)`. -/
def jGetD (fields : List (String × JValue)) (k : String) (d : JValue) : JValue :=
  match jLookup fields k with
  | some v => v
  | none => d

mutual

/-- Python `repr` of a JSON-loaded value, as an f-string renders lists and
dicts.  Escaping inside `repr` is a library boundary and is not modelled
(the embedded inputs contain no quotes or escapes). -/
def pyRepr : JValue → String
  | .jstr v => squote ++ v ++ squote
  | .jnum n => intStr n
  | .jbool b => if b then "True" else "False"
  | .jnull => "None"
  | .jarr xs => "[" ++ strJoin ", " (pyReprList xs) ++ "]"
  | .jobj fs => "\x7b" ++ strJoin ", " (pyReprFields fs) ++ "\x7d"

/-- `repr` of each element of a list. -/
def pyReprList : List JValue → List String
  | [] => []
  | x :: xs => pyRepr x :: pyReprList xs

/-- `repr` of each `key: value` entry of a dict. -/
def pyReprFields : List (String × JValue) → List String
  | [] => []
  | f :: fs => (squote ++ f.1 ++ squote ++ ": " ++ pyRepr f.2) :: pyReprFields fs

end

/-- Python `str()` of a JSON-loaded value (f-string placeholder). -/
def pyStr : JValue → String
  | .jstr v => v
  | v => pyRepr v

mutual

/-- `json.dumps(item, ensure_ascii=False)` with the default separators.
String escaping is a library boundary and is not modelled. -/
def jsonDumps : JValue → String
  | .jstr v => "\"" ++ v ++ "\""
  | .jnum n => intStr n
  | .jbool b => if b then "true" else "false"
  | .jnull => "null"
  | .jarr xs => "[" ++ strJoin ", " (jsonDumpsList xs) ++ "]"
  | .jobj fs => "\x7b" ++ strJoin ", " (jsonDumpsFields fs) ++ "\x7d"

/-- `json.dumps` of each element of a list. -/
def jsonDumpsList : List JValue → List String
  | [] => []
  | x :: xs => jsonDumps x :: jsonDumpsList xs

/-- `json.dumps` of each `"key": value` entry of a dict. -/
def jsonDumpsFields : List (String × JValue) → List String
  | [] => []
  | f :: fs => ("\"" ++ f.1 ++ "\": " ++ jsonDumps f.2) :: jsonDumpsFields fs

end

/-- The strings Python `sep.join(x)` would iterate: a list (whose items
must all be `str`), a string (its characters), or a dict (its keys); any
other value — or a non-string list item — raises a `TypeError`. -/
def pyIterStrs : JValue → Except String (List String)
  | .jarr xs =>
      if xs.all (fun v => match v with | .jstr _ => true | _ => false)
      then .ok (xs.map pyStr)
      else .error "TypeError: sequence item: expected str instance"
  | .jstr v => .ok (v.data.map (fun c => String.singleton c))
  | .jobj fs => .ok (fs.map (fun f => f.1))
  | _ => .error "TypeError: can only join an iterable"

/-- Python `sep.join(x)`. -/
def pyJoinSep (sep : String) (v : JValue) : Except String String :=
  (pyIterStrs v).map (fun xs => strJoin sep xs)

/-- The items Python `enumerate(items)` iterates: a list's elements, a
string's characters, a dict's keys; numbers, booleans and `None` raise. -/
def pyIter : JValue → Except String (List JValue)
  | .jarr xs => .ok xs
  | .jstr v => .ok (v.data.map (fun c => .jstr (String.singleton c)))
  | .jobj fs => .ok (fs.map (fun f => .jstr f.1))
  | _ => .error "TypeError: object is not iterable"

/-- The structured text for one JSON record (`src/ingestion.py` lines
128–147): a rule record renders the five-line composite (the two example
joins can raise); a term/definition record renders `"term: definition"`;
any other dict renders as compact JSON; a non-dict renders as `str(item)`. -/
def renderJsonItem (item : JValue) : Except String String :=
  match item with
  | .jobj fs =>
      if (jLookup fs "rule_id").isSome then
        match pyJoinSep ", " (jGetD fs "bad_examples" (.jarr [])) with
        | .error e => .error e
        | .ok bad =>
            match pyJoinSep ", " (jGetD fs "good_examples" (.jarr [])) with
            | .error e => .error e
            | .ok good =>
                .ok (strJoin "\n"
                  ["Rule " ++ pyStr (jGetD fs "rule_id" (.jstr "")) ++ ": " ++
                      pyStr (jGetD fs "category" (.jstr "")),
                   "Description: " ++ pyStr (jGetD fs "description" (.jstr "")),
                   "Bad Examples: " ++ bad,
                   "Good Examples: " ++ good,
                   "Correction Strategy: " ++
                      pyStr (jGetD fs "correction_strategy" (.jstr ""))])
      else if (jLookup fs "term").isSome ∧ (jLookup fs "definition").isSome then
        .ok (pyStr (jGetD fs "term" .jnull) ++ ": " ++ pyStr (jGetD fs "definition" .jnull))
      else .ok (jsonDumps item)
  | _ => .ok (pyStr item)

/-- The three accumulator lists of `parse_file` (`documents, ids,
metadatas`). -/
structure ParseAcc where
  documents : List String
  ids : List String
  metadatas : List Metadata
deriving DecidableEq

/-- Content type inferred from a `.json` filename (lines 120–126). -/
def jsonContentType (filename : String) : String :=
  if pyContainsSub (pyLower filename) "rule" then "ambiguity_rule"
  else if pyContainsSub (pyLower filename) "glossary" then "glossary_term"
  else "structured_data"

/-- The metadata dict of one JSON record (lines 150–155): note it carries
an `item` locator and no `page` key. -/
def jsonMeta (filename content_type : String) (idx : ℕ) : Metadata :=
  [("source", .s filename), ("item", .n idx), ("type", .s "json"),
   ("content_type", .s content_type)]

/-- The per-record loop of the JSON branch.  The first record whose text
construction raises aborts the loop; the lists accumulated so far survive
(they are the caller's mutable lists, returned past the `except`). -/
def jsonItemsLoop (filename content_type : String) :
    List JValue → ℕ → ParseAcc → ParseAcc × Option String
  | [], _, acc => (acc, none)
  | item :: rest, idx, acc =>
      match renderJsonItem item with
      | .error e => (acc, some e)
      | .ok text =>
          jsonItemsLoop filename content_type rest (idx + 1)
            { documents := acc.documents ++ [text],
              ids := acc.ids ++ [filename ++ "_item_" ++ natStr idx],
              metadatas := acc.metadatas ++ [jsonMeta filename content_type idx] }

/-- The `.json` branch of `parse_file`: `json.load` (external; `none`
models a load failure), then
`items = data if isinstance(data, list) else data.get("items", [])`
(an `AttributeError` for a non-dict, non-list top level), then the record
loop over whatever `items` iterates as. -/
def jsonBranch (filename : String) (loaded : Option JValue) : ParseAcc × Option String :=
  match loaded with
  | none => (⟨[], [], []⟩, some "json.load failed")
  | some data =>
      let itemsE : Except String JValue :=
        match data with
        | .jarr _ => .ok data
        | .jobj fs => .ok (jGetD fs "items" (.jarr []))
        | _ => .error "AttributeError: object has no attribute get"
      match itemsE with
      | .error e => (⟨[], [], []⟩, some e)
      | .ok items =>
          match pyIter items with
          | .error e => (⟨[], [], []⟩, some e)
          | .ok xs => jsonItemsLoop filename (jsonContentType filename) xs 0 ⟨[], [], []⟩

/-- `f"{min(ps)}-{max(ps)}"` when the chunk spans several pages, else
`str(ps[0])`; an empty page list would raise (shown unreachable for chunks
produced by `semantic_chunk_pdf`). -/
def pageRangeOf (page_nums : List ℕ) : Except String String :=
  match page_nums with
  | [] => .error "ValueError: min of empty sequence"
  | [p] => .ok (natStr p)
  | p :: q :: rest =>
      .ok (natStr ((q :: rest).foldl min p) ++ "-" ++ natStr ((q :: rest).foldl max p))

/-- Content type inferred from a `.pdf` filename (line 100). -/
def pdfContentType (filename : String) : String :=
  if pyContainsSub (pyLower filename) "iso" || pyContainsSub (pyLower filename) "29148"
  then "standard"
  else if pyContainsSub (pyLower filename) "glossary" then "glossary"
  else "document"

/-- The per-chunk loop of the PDF branch (lines 95–109).  `documents` is
appended before the page range is computed, mirroring the statement order
inside the `try`. -/
def pdfChunksLoop (filename content_type : String) :
    List (String × List ℕ) → ℕ → ParseAcc → ParseAcc × Option String
  | [], _, acc => (acc, none)
  | (chunk_text, page_nums) :: rest, idx, acc =>
      let acc1 : ParseAcc :=
        { acc with documents := acc.documents ++ [chunk_text] }
      match pageRangeOf page_nums with
      | .error e => (acc1, some e)
      | .ok page_range =>
          pdfChunksLoop filename content_type rest (idx + 1)
            { documents := acc1.documents,
              ids := acc1.ids ++ [filename ++ "_chunk_" ++ natStr idx],
              metadatas := acc1.metadatas ++
                [[("source", .s filename), ("page", .s page_range), ("type", .s "pdf"),
                  ("content_type", .s content_type), ("chunk_id", .n idx)]] }

/-- The `.pdf` branch of `parse_file`: open the document (external; `none`
models `fitz.open`/text extraction failing before any append), chunk it,
then the per-chunk loop. -/
def pdfBranch (filename : String) (docPages : Option (List String)) :
    ParseAcc × Option String :=
  match docPages with
  | none => (⟨[], [], []⟩, some "fitz.open failed")
  | some pages =>
      pdfChunksLoop filename (pdfContentType filename) (semantic_chunk_pdf pages 200 1000).1
        0 ⟨[], [], []⟩

/-- Match the regex `TEMPLATE:\s*[^\n]+` at the head of `cs`: the literal,
a greedy whitespace run backtracking until a non-newline character can
start `[^\n]+`, then the maximal non-newline run.  Returns the match
length. -/
def matchTemplateAt (cs : List Char) : Option ℕ :=
  if ("TEMPLATE:".data).isPrefixOf cs then
    let afterLit := cs.drop 9
    let wsLen := (afterLit.takeWhile isPySpace).length
    match ((List.range (wsLen + 1)).reverse).findSome?
        (fun k => match afterLit[k]? with
          | some c => if c ≠ '\n' then some k else none
          | none => none) with
    | some k => some (9 + k + ((afterLit.drop k).takeWhile (· ≠ '\n')).length)
    | none => none
  else none

/-- Leftmost match of the template pattern in a suffix whose head has
absolute index `i`; returns absolute (start, end). -/
def scanTemplate : ℕ → List Char → Option (ℕ × ℕ)
  | _, [] => none
  | i, c :: rest =>
      match matchTemplateAt (c :: rest) with
      | some len => some (i, i + len)
      | none => scanTemplate (i + 1) rest

/-- `re.finditer(template_pattern, content)`: repeatedly take the leftmost
match at or after the previous match end (`fuel` bounds the recursion;
every match is non-empty). -/
def templateMatchesAux (cs : List Char) : ℕ → ℕ → List (ℕ × ℕ)
  | 0, _ => []
  | fuel + 1, pos =>
      match scanTemplate pos (cs.drop pos) with
      | none => []
      | some (s, e) => (s, e) :: templateMatchesAux cs fuel e

/-- All template-pattern matches of the content. -/
def templateMatches (cs : List Char) : List (ℕ × ℕ) :=
  templateMatchesAux cs (cs.length + 1) 0

/-- The metadata dict of a `.txt/.md` chunk. -/
def templateMeta (filename : String) (chunk_idx : ℕ) : Metadata :=
  [("source", .s filename), ("type", .s "template"), ("content_type", .s "template"),
   ("chunk_id", .n chunk_idx)]

/-- Append one `.txt/.md` chunk to the accumulator when `cond` holds
(`cond` packages the source's guard), bumping the chunk counter. -/
def condPush (filename : String) (cond : Bool) (text : String) (pr : ParseAcc × ℕ) :
    ParseAcc × ℕ :=
  if cond then
    ({ documents := pr.1.documents ++ [text],
       ids := pr.1.ids ++ [filename ++ "_chunk_" ++ natStr pr.2],
       metadatas := pr.1.metadatas ++ [templateMeta filename pr.2] }, pr.2 + 1)
  else pr

/-- The template-splitting loop of the `.txt/.md` branch (lines 170–209):
for each `TEMPLATE:` match, first emit the text between `chunk_start` and
the match (if its strip is ≥ 200 characters), then emit the template
section running to the next match (`re.search` on the remaining slice) or
to end of file (if ≥ 200 characters), and advance `chunk_start`. -/
def txtTemplateLoop (filename : String) (content : List Char) :
    List (ℕ × ℕ) → ℕ → ℕ → ParseAcc → ParseAcc
  | [], _, _, acc => acc
  | (mstart, mend) :: rest, chunk_start, chunk_idx, acc =>
      let prev_chunk := pyStrip ⟨(content.take mstart).drop chunk_start⟩
      let step1 := condPush filename
        (decide (chunk_start < mstart) && decide (200 ≤ prev_chunk.length))
        prev_chunk (acc, chunk_idx)
      let nextRel := scanTemplate 0 (content.drop mend)
      let template_text :=
        match nextRel with
        | some (s2, _) => pyStrip ⟨(content.take (mend + s2)).drop mstart⟩
        | none => pyStrip ⟨content.drop mstart⟩
      let step2 := condPush filename (decide (200 ≤ template_text.length)) template_text step1
      txtTemplateLoop filename content rest
        (mend + (match nextRel with | some (s2, _) => s2 | none => content.length))
        step2.2 step2.1

/-- The fixed-size fallback chunking (window 800, hop 700, keep strips
≥ 200 characters; lines 210–224). -/
def txtFallback (filename : String) (content : List Char) : ParseAcc :=
  (pyRange 0 content.length 700).foldl
    (fun acc i =>
      let chunk := pyStrip ⟨(content.drop i).take 800⟩
      if 200 ≤ chunk.length then
        { documents := acc.documents ++ [chunk],
          ids := acc.ids ++ [filename ++ "_chunk_" ++ natStr (i / 700)],
          metadatas := acc.metadatas ++ [templateMeta filename (i / 700)] }
      else acc)
    ⟨[], [], []⟩

/-- The `.txt/.md` branch of `parse_file`: read the file (external; `none`
models the read raising), split at template markers when at least one is
present, otherwise fall back to fixed-size chunking. -/
def txtBranch (filename : String) (content? : Option String) : ParseAcc × Option String :=
  match content? with
  | none => (⟨[], [], []⟩, some "read failed")
  | some content =>
      let ms := templateMatches content.data
      if ms.isEmpty then (txtFallback filename content.data, none)
      else (txtTemplateLoop filename content.data ms 0 0 ⟨[], [], []⟩, none)

/-- The external read results for one file: `fitz.open` + per-page
`get_text` for `.pdf`, `json.load` for `.json`, `f.read()` for `.txt/.md`;
`none` models the external call raising. -/
structure FileData where
  pdfPages : Option (List String)
  jsonData : Option JValue
  textContent : Option String

/-- `parse_file` from `src/ingestion.py`: dispatch on the filename suffix.
The whole branch body runs inside `try/except Exception`, which prints the
error (returned here as the second component) and falls through to return
whatever the three lists accumulated before the failure. -/
def parse_file (filename : String) (data : FileData) : ParseAcc × Option String :=
  if pyEndsWith filename ".pdf" then pdfBranch filename data.pdfPages
  else if pyEndsWith filename ".json" then jsonBranch filename data.jsonData
  else if pyEndsWith filename ".txt" || pyEndsWith filename ".md" then
    txtBranch filename data.textContent
  else (⟨[], [], []⟩, none)

/-- `load_initial_knowledge`: parse every file of the folder in order and
concatenate the results; a failing file contributes whatever it
accumulated and never stops the scan. -/
def load_initial_knowledge (files : List (String × FileData)) : ParseAcc :=
  files.foldl
    (fun acc f =>
      let r := (parse_file f.1 f.2).1
      { documents := acc.documents ++ r.documents,
        ids := acc.ids ++ r.ids,
        metadatas := acc.metadatas ++ r.metadatas })
    ⟨[], [], []⟩

/-- Alignment of the three accumulator lists plus uniqueness of the ids. -/
def AccAligned (acc : ParseAcc) : Prop :=
  acc.documents.length = acc.ids.length ∧
  acc.metadatas.length = acc.ids.length ∧ acc.ids.Nodup

/-- Strengthened loop invariant: aligned, and every id is `base ++ natStr j`
for some `j < bound` (so ids stay distinct as the loop counter grows). -/
def AccGood (base : String) (bound : ℕ) (acc : ParseAcc) : Prop :=
  acc.documents.length = acc.ids.length ∧
  acc.metadatas.length = acc.ids.length ∧
  acc.ids.Nodup ∧
  ∀ s ∈ acc.ids, ∃ j, j < bound ∧ s = base ++ natStr j

theorem accGood_aligned {base : String} {b : ℕ} {acc : ParseAcc}
    (h : AccGood base b acc) : AccAligned acc :=
  ⟨h.1, h.2.1, h.2.2.1⟩

theorem accGood_empty (base : String) : AccGood base 0 ⟨[], [], []⟩ := by
  refine ⟨rfl, rfl, List.nodup_nil, ?_⟩
  intro s hs
  simp at hs

theorem accAligned_empty : AccAligned ⟨[], [], []⟩ := ⟨rfl, rfl, List.nodup_nil⟩

theorem accGood_mono {base : String} {b b2 : ℕ} {acc : ParseAcc}
    (h : AccGood base b acc) (hb : b ≤ b2) : AccGood base b2 acc := by
  obtain ⟨h1, h2, h3, h4⟩ := h
  refine ⟨h1, h2, h3, fun s hs => ?_⟩
  obtain ⟨j, hj, he⟩ := h4 s hs
  exact ⟨j, by omega, he⟩

theorem accGood_push {base : String} {bound : ℕ} {acc : ParseAcc}
    (h : AccGood base bound acc) (doc : String) (meta : Metadata) :
    AccGood base (bound + 1)
      { documents := acc.documents ++ [doc],
        ids := acc.ids ++ [base ++ natStr bound],
        metadatas := acc.metadatas ++ [meta] } := by
  obtain ⟨h1, h2, h3, h4⟩ := h
  refine ⟨by simp [h1], by simp [h2], ?_, ?_⟩
  · rw [List.nodup_append]
    refine ⟨h3, List.nodup_singleton _, ?_⟩
    intro s hs hmem
    rcases List.mem_singleton.mp hmem with rfl
    obtain ⟨j, hj, he⟩ := h4 _ hs
    have := append_natStr_inj he.symm
    omega
  · intro s hs
    rcases List.mem_append.mp hs with hm | hm
    · obtain ⟨j, hj, he⟩ := h4 s hm
      exact ⟨j, by omega, he⟩
    · exact ⟨bound, by omega, List.mem_singleton.mp hm⟩

theorem jsonItemsLoop_good (filename content_type : String) :
    ∀ (items : List JValue) (idx : ℕ) (acc : ParseAcc),
      AccGood (filename ++ "_item_") idx acc →
      ∃ b, AccGood (filename ++ "_item_") b
        (jsonItemsLoop filename content_type items idx acc).1 := by
  intro items
  induction items with
  | nil => intro idx acc h; exact ⟨idx, h⟩
  | cons item rest ih =>
      intro idx acc h
      cases hr : renderJsonItem item with
      | error e => simp only [jsonItemsLoop, hr]; exact ⟨idx, h⟩
      | ok text =>
          simp only [jsonItemsLoop, hr]
          exact ih (idx + 1) _ (accGood_push h text _)

theorem pageRangeOf_ok {ps : List ℕ} (h : ps ≠ []) : ∃ s, pageRangeOf ps = .ok s := by
  match ps with
  | [] => exact absurd rfl h
  | [p] => exact ⟨_, rfl⟩
  | p :: q :: rest => exact ⟨_, rfl⟩

theorem pdfChunksLoop_good (filename content_type : String) :
    ∀ (chunks : List (String × List ℕ)) (idx : ℕ) (acc : ParseAcc),
      (∀ c ∈ chunks, c.2 ≠ []) →
      AccGood (filename ++ "_chunk_") idx acc →
      ∃ b, AccGood (filename ++ "_chunk_") b
        (pdfChunksLoop filename content_type chunks idx acc).1 := by
  intro chunks
  induction chunks with
  | nil => intro idx acc _ h; exact ⟨idx, h⟩
  | cons c rest ih =>
      intro idx acc hne h
      rcases c with ⟨text, pages⟩
      obtain ⟨pr, hpr⟩ := pageRangeOf_ok (hne (text, pages) (by simp))
      simp only [pdfChunksLoop, hpr]
      exact ih (idx + 1) _ (fun c2 hc2 => hne c2 (by simp [hc2])) (accGood_push h text _)

theorem condPush_good {filename : String} {pr : ParseAcc × ℕ}
    (h : AccGood (filename ++ "_chunk_") pr.2 pr.1) (cond : Bool) (text : String) :
    AccGood (filename ++ "_chunk_") (condPush filename cond text pr).2
      (condPush filename cond text pr).1 := by
  cases cond with
  | false => simpa [condPush] using h
  | true =>
      rcases pr with ⟨acc, bound⟩
      simpa [condPush] using accGood_push h text _

theorem txtTemplateLoop_good (filename : String) (content : List Char) :
    ∀ (ms : List (ℕ × ℕ)) (chunk_start chunk_idx : ℕ) (acc : ParseAcc),
      AccGood (filename ++ "_chunk_") chunk_idx acc →
      ∃ b, AccGood (filename ++ "_chunk_") b
        (txtTemplateLoop filename content ms chunk_start chunk_idx acc) := by
  intro ms
  induction ms with
  | nil => intro cs ci acc h; exact ⟨ci, h⟩
  | cons m rest ih =>
      intro cs ci acc h
      rcases m with ⟨mstart, mend⟩
      simp only [txtTemplateLoop]
      exact ih _ _ _ (condPush_good (condPush_good h _ _) _ _)

/-- Invariant along a fold over `List.range k`, where processing index `j`
may push the id with index `j`. -/
theorem accGood_fold_range (base : String) (f : ParseAcc → ℕ → ParseAcc)
    (hf : ∀ acc j, AccGood base j acc → AccGood base (j + 1) (f acc j)) :
    ∀ k, AccGood base k ((List.range k).foldl f ⟨[], [], []⟩) := by
  intro k
  induction k with
  | zero => simpa using accGood_empty base
  | succ k ih => rw [List.range_succ, List.foldl_append]; exact hf _ k ih

theorem txtFallback_good (filename : String) (content : List Char) :
    ∃ b, AccGood (filename ++ "_chunk_") b (txtFallback filename content) := by
  refine ⟨(content.length + 700 - 1) / 700, ?_⟩
  unfold txtFallback pyRange
  rw [List.foldl_map]
  refine accGood_fold_range _ _ ?_ _
  intro acc j h
  by_cases hcnd : 200 ≤ (pyStrip ⟨(content.drop (0 + 700 * j)).take 800⟩).length
  · simp only [if_pos hcnd]
    have hdiv : (0 + 700 * j) / 700 = j := by omega
    rw [hdiv]
    exact accGood_push h _ _
  · simp only [if_neg hcnd]
    exact accGood_mono h (by omega)

/-- Claim C6: for every input file, the three sequences returned by
`parse_file` (documents, ids, metadatas) have equal length and are
positionally aligned, and the ids are pairwise distinct — on every branch,
including every caught-failure path. -/
theorem claim_C6_alignment (filename : String) (data : FileData) :
    (parse_file filename data).1.documents.length =
      (parse_file filename data).1.ids.length ∧
    (parse_file filename data).1.metadatas.length =
      (parse_file filename data).1.ids.length ∧
    (parse_file filename data).1.ids.Nodup := by
  suffices h : AccAligned (parse_file filename data).1 from ⟨h.1, h.2.1, h.2.2⟩
  unfold parse_file
  split_ifs with h1 h2 h3
  · -- .pdf branch
    unfold pdfBranch
    cases data.pdfPages with
    | none => exact accAligned_empty
    | some pages =>
        obtain ⟨b, hb⟩ := pdfChunksLoop_good filename (pdfContentType filename)
          (semantic_chunk_pdf pages 200 1000).1 0 ⟨[], [], []⟩
          (fun c hc => (semantic_chunk_pdf_chunks pages 200 1000 c hc).2)
          (accGood_empty _)
        exact accGood_aligned hb
  · -- .json branch
    unfold jsonBranch
    cases data.jsonData with
    | none => exact accAligned_empty
    | some d =>
        cases d with
        | jarr xs =>
            obtain ⟨b, hb⟩ := jsonItemsLoop_good filename (jsonContentType filename)
              xs 0 ⟨[], [], []⟩ (accGood_empty _)
            simpa [pyIter] using accGood_aligned hb
        | jobj fs =>
            cases hp : pyIter (jGetD fs "items" (.jarr [])) with
            | error e => simp [hp]; exact accAligned_empty
            | ok xs =>
                obtain ⟨b, hb⟩ := jsonItemsLoop_good filename (jsonContentType filename)
                  xs 0 ⟨[], [], []⟩ (accGood_empty _)
                simpa [hp] using accGood_aligned hb
        | jstr v => exact accAligned_empty
        | jnum n => exact accAligned_empty
        | jbool bb => exact accAligned_empty
        | jnull => exact accAligned_empty
  · -- .txt / .md branch
    unfold txtBranch
    cases data.textContent with
    | none => exact accAligned_empty
    | some content =>
        by_cases hms : (templateMatches content.data).isEmpty
        · obtain ⟨b, hb⟩ := txtFallback_good filename content.data
          simpa [hms] using accGood_aligned hb
        · obtain ⟨b, hb⟩ := txtTemplateLoop_good filename content.data
            (templateMatches content.data) 0 0 ⟨[], [], []⟩ (accGood_empty _)
          simpa [hms] using accGood_aligned hb
  · exact accAligned_empty

/-- A JSON file whose first record is well-formed (a glossary-shaped
term/definition record) and whose second record is a rule whose
`bad_examples` field is a number — so `', '.join` raises on it. -/
def badJsonFile : FileData where
  pdfPages := none
  jsonData := some (.jarr [
    .jobj [("term", .jstr "latency"), ("definition", .jstr "delay")],
    .jobj [("rule_id", .jstr "R2"), ("bad_examples", .jnum 5)]])
  textContent := none

/-- Counterexample to claim C5 as stated: parsing `rules.json` with
`badJsonFile` hits an internal failure (an exception is caught and
logged), yet the returned sequences are NOT the three empty sequences —
the record parsed before the failure is kept and returned. -/
theorem claim_C5_counterexample :
    ((parse_file "rules.json" badJsonFile).2).isSome = true ∧
    (parse_file "rules.json" badJsonFile).1.documents = ["latency: delay"] ∧
    ¬ (parse_file "rules.json" badJsonFile).1 = ⟨[], [], []⟩ :=
  ⟨by decide, by decide, by decide⟩

/-- Claim C5 (amended): `parse_file` never raises past its boundary — it
is a total function that logs the caught error and returns whatever the
three lists accumulated before the failure.  When the initial external
read fails (PDF open / text extraction, JSON load, or file read), nothing
was accumulated and the three returned sequences are empty; and one bad
file never aborts ingestion of other files — `load_initial_knowledge` is
exactly the concatenation of each file's own contribution, whatever the
other files did.  A failure in the middle of a file's record loop,
however, returns the non-empty prefix accumulated so far rather than
empty sequences (see the counterexample). -/
theorem claim_C5_parse_failure :
    (∀ (filename : String) (data : FileData),
        data.pdfPages = none → data.jsonData = none → data.textContent = none →
        (parse_file filename data).1 = ⟨[], [], []⟩) ∧
    (∀ files : List (String × FileData),
        load_initial_knowledge files =
          ⟨files.flatMap (fun f => (parse_file f.1 f.2).1.documents),
           files.flatMap (fun f => (parse_file f.1 f.2).1.ids),
           files.flatMap (fun f => (parse_file f.1 f.2).1.metadatas)⟩) := by
  constructor
  · intro filename data h1 h2 h3
    unfold parse_file
    split_ifs with hp hj ht
    · simp [pdfBranch, h1]
    · simp [jsonBranch, h2]
    · simp [txtBranch, h3]
    · rfl
  · suffices h : ∀ (files : List (String × FileData)) (acc : ParseAcc),
        files.foldl (fun acc f =>
          let r := (parse_file f.1 f.2).1
          { documents := acc.documents ++ r.documents,
            ids := acc.ids ++ r.ids,
            metadatas := acc.metadatas ++ r.metadatas }) acc =
          ⟨acc.documents ++ files.flatMap (fun f => (parse_file f.1 f.2).1.documents),
           acc.ids ++ files.flatMap (fun f => (parse_file f.1 f.2).1.ids),
           acc.metadatas ++ files.flatMap (fun f => (parse_file f.1 f.2).1.metadatas)⟩ by
      intro files
      simpa [load_initial_knowledge] using h files ⟨[], [], []⟩
    intro files
    induction files with
    | nil => intro acc; simp
    | cons f rest ih => intro acc; simp [ih, List.append_assoc]

theorem claim_C5_parse_failure_witness :
    (parse_file "broken.pdf" ⟨none, none, none⟩).1 = ⟨[], [], []⟩ ∧
    load_initial_knowledge [("broken.pdf", ⟨none, none, none⟩), ("rules.json", badJsonFile)] =
      ⟨[("broken.pdf", (⟨none, none, none⟩ : FileData)), ("rules.json", badJsonFile)].flatMap
          (fun f => (parse_file f.1 f.2).1.documents),
       [("broken.pdf", (⟨none, none, none⟩ : FileData)), ("rules.json", badJsonFile)].flatMap
          (fun f => (parse_file f.1 f.2).1.ids),
       [("broken.pdf", (⟨none, none, none⟩ : FileData)), ("rules.json", badJsonFile)].flatMap
          (fun f => (parse_file f.1 f.2).1.metadatas)⟩ :=
  ⟨claim_C5_parse_failure.1 "broken.pdf" ⟨none, none, none⟩ rfl rfl rfl,
   claim_C5_parse_failure.2 [("broken.pdf", ⟨none, none, none⟩), ("rules.json", badJsonFile)]⟩

theorem jsonItemsLoop_metas (filename content_type : String) :
    ∀ (items : List JValue) (idx : ℕ) (acc : ParseAcc),
      (∀ m ∈ acc.metadatas, ∃ j, m = jsonMeta filename content_type j) →
      ∀ m ∈ (jsonItemsLoop filename content_type items idx acc).1.metadatas,
        ∃ j, m = jsonMeta filename content_type j := by
  intro items
  induction items with
  | nil => intro idx acc h; exact h
  | cons item rest ih =>
      intro idx acc h
      cases hr : renderJsonItem item with
      | error e => simp only [jsonItemsLoop, hr]; exact h
      | ok text =>
          simp only [jsonItemsLoop, hr]
          refine ih (idx + 1) _ ?_
          intro m hm
          rcases List.mem_append.mp hm with hm | hm
          · exact h m hm
          · exact ⟨idx, List.mem_singleton.mp hm⟩

/-- Every metadata record the JSON branch emits is a `jsonMeta`. -/
theorem jsonBranch_metas (filename : String) (loaded : Option JValue) :
    ∀ m ∈ (jsonBranch filename loaded).1.metadatas,
      ∃ j, m = jsonMeta filename (jsonContentType filename) j := by
  intro m hm
  cases loaded with
  | none => exact absurd hm (List.not_mem_nil m)
  | some d =>
      cases d with
      | jarr xs => exact jsonItemsLoop_metas _ _ xs 0 _ (by simp) m hm
      | jobj fs =>
          cases hp : pyIter (jGetD fs "items" (.jarr [])) with
          | error e =>
              have hb : jsonBranch filename (some (.jobj fs)) = (⟨[], [], []⟩, some e) := by
                unfold jsonBranch
                dsimp only
                rw [hp]
              rw [hb] at hm
              exact absurd hm (List.not_mem_nil m)
          | ok xs =>
              have hb : jsonBranch filename (some (.jobj fs)) =
                  jsonItemsLoop filename (jsonContentType filename) xs 0 ⟨[], [], []⟩ := by
                unfold jsonBranch
                dsimp only
                rw [hp]
              rw [hb] at hm
              exact jsonItemsLoop_metas _ _ xs 0 _ (by simp) m hm
      | jstr v => exact absurd hm (List.not_mem_nil m)
      | jnum n => exact absurd hm (List.not_mem_nil m)
      | jbool bb => exact absurd hm (List.not_mem_nil m)
      | jnull => exact absurd hm (List.not_mem_nil m)

/-- Counterexample to claim C9 as stated: the evidence record ingested for
the first record of `rules.json` carries the item index `0` as locator,
but the exported report renders its location as `N/A` (the report reads
the `page` field, which JSON metadata does not have) — not as the item
index. -/
theorem claim_C9_counterexample :
    (parse_file "rules.json" badJsonFile).1.metadatas =
      [jsonMeta "rules.json" "ambiguity_rule" 0] ∧
    evidenceLine 1 (jsonMeta "rules.json" "ambiguity_rule" 0) =
      "  1. rules.json (ambiguity_rule) - Page: N/A" ∧
    evidenceLine 1 (jsonMeta "rules.json" "ambiguity_rule" 0) ≠
      "  1. rules.json (ambiguity_rule) - Page: 0" :=
  ⟨by decide, by decide, by decide⟩

/-- Claim C9 (amended): every evidence record resolves to a human-readable
location string in the exported report — the report renders the record's
`page` field, defaulting to `"N/A"`.  Records from structured-record
(JSON) sources carry an `item` locator and no `page` key, so their
rendered location is `N/A`; the item index is not displayed. -/
theorem claim_C9_json_location :
    (∀ (i : ℕ) (item : Metadata),
        evidenceLine i item =
          "  " ++ natStr i ++ ". " ++ mvStr (dictGetD item "source" (.s "Unknown")) ++
            " (" ++
            mvStr (dictGetD item "content_type" (dictGetD item "type" (.s "General"))) ++
            ") - Page: " ++ mvStr (dictGetD item "page" (.s "N/A"))) ∧
    (∀ (filename content_type : String) (j i : ℕ),
        evidenceLine i (jsonMeta filename content_type j) =
          "  " ++ natStr i ++ ". " ++ filename ++ " (" ++ content_type ++
            ") - Page: N/A") ∧
    (∀ (filename : String) (loaded : Option JValue),
        ∀ m ∈ (jsonBranch filename loaded).1.metadatas,
          dictGetD m "page" (.s "N/A") = .s "N/A") := by
  refine ⟨?_, ?_, ?_⟩
  · intro i item
    rfl
  · intro filename content_type j i
    simp only [evidenceLine, jsonMeta, dictGetD, mvStr]
    norm_num
    rw [String.append_assoc]
    congr 1
  · intro filename loaded m hm
    obtain ⟨j, rfl⟩ := jsonBranch_metas filename loaded m hm
    simp [jsonMeta, dictGetD]

theorem claim_C9_json_location_witness :
    dictGetD (jsonMeta "rules.json" "ambiguity_rule" 0) "page" (MValue.s "N/A") =
      MValue.s "N/A" :=
  claim_C9_json_location.2.2 "rules.json" badJsonFile.jsonData
    (jsonMeta "rules.json" "ambiguity_rule" 0) (by decide)

end Spec2Proof
